import Mathlib

/-!
Verification of `pyrad/fields/modules/mlp.py` (the MLP builder/evaluator).

The source is shallowly embedded:
* a `Linear` unit carries its declared feature dimensions and its learnable
  parameters (weight matrix and bias, as functions into ℚ);
* a `Tensor` is a list of feature rows together with its leading (batch)
  dimensions and trailing feature dimension;
* `MLP.construct` embeds `MLP.__init__` / `MLP.build_nn_modules` (the
  `assert` statements become `Option` failure);
* `MLP.forwardSteps` embeds the loop of `MLP.forward`; it additionally
  reports how many times the skip-connection concatenation branch ran,
  which erases to the source semantics (`MLP.forward` projects it away).

Python integers are embedded as ℤ; tensor entries are ℚ (exact numeric
semantics for the affine maps, activations and concatenation).
-/

/-- A linear (affine) unit: `nn.Linear(inFeatures, outFeatures)` together
with its learnable parameters. -/
structure Linear where
  inFeatures : ℕ
  outFeatures : ℕ
  weight : ℕ → ℕ → ℚ
  bias : ℕ → ℚ

/-- A batched tensor: leading (batch) dimensions, trailing feature
dimension, and the data as one feature row per batch element. -/
structure Tensor where
  batchDims : List ℕ
  feat : ℕ
  data : List (List ℚ)
  deriving DecidableEq

/-- Well-formedness of a tensor: the number of rows is the product of the
leading dimensions and every row has the trailing dimension's length. -/
def Tensor.wf (t : Tensor) : Prop :=
  t.data.length = t.batchDims.prod ∧ ∀ r ∈ t.data, r.length = t.feat

instance (t : Tensor) : Decidable t.wf := by
  unfold Tensor.wf; infer_instance

/-- Apply a linear unit to a tensor over the trailing axis, batched over
the leading axes; a trailing-dimension mismatch is a shape error. -/
def linearApply (l : Linear) (t : Tensor) : Option Tensor :=
  if t.feat = l.inFeatures then
    some ⟨t.batchDims, l.outFeatures,
      t.data.map (fun row =>
        (List.range l.outFeatures).map (fun j =>
          l.bias j + ((List.range l.inFeatures).map
            (fun k => l.weight j k * row.getD k 0)).sum))⟩
  else none

/-- Embeds `torch.cat([a, b], -1)`: concatenate along the trailing axis; the
leading dimensions must agree. -/
def catLast (a b : Tensor) : Option Tensor :=
  if a.batchDims = b.batchDims then
    some ⟨a.batchDims, a.feat + b.feat, (a.data.zip b.data).map (fun p => p.1 ++ p.2)⟩
  else none

/-- Element-wise application of an activation transform. -/
def actApply (f : ℚ → ℚ) (t : Tensor) : Tensor :=
  ⟨t.batchDims, t.feat, t.data.map (List.map f)⟩

/-- Embeds `if self.activation: x = self.activation(x)` — a present module is
truthy, `None` is falsy. -/
def applyAct (act : Option (ℚ → ℚ)) (t : Tensor) : Tensor :=
  match act with
  | some f => actApply f t
  | none => t

/-- The rectified linear unit, `nn.ReLU`: `max(q, 0)`, written with an
explicit comparison so that it evaluates by kernel reduction. -/
def relu (q : ℚ) : ℚ := if q ≤ 0 then 0 else q

/-- The constructor arguments of `MLP.__init__`. -/
structure MLPConfig where
  in_dim : ℤ
  num_layers : ℤ
  layer_width : ℤ
  out_dim : Option ℤ
  skip_connections : List ℤ
  activation : Option (ℚ → ℚ)
  out_activation : Option (ℚ → ℚ)

/-- Dimension pair of `nn.Linear(a, b)`; torch rejects negative dimensions. -/
def mkLinearDims (a b : ℤ) : Option (ℕ × ℕ) :=
  if 0 ≤ a ∧ 0 ≤ b then some (a.toNat, b.toNat) else none

/-- One iteration of the hidden-layer loop of `build_nn_modules`: at
`i == 0` assert `0 ∉ skip_connections` and build `in_dim → layer_width`;
at a skip index build `(layer_width + in_dim) → layer_width`; otherwise
`layer_width → layer_width`. -/
def hiddenLayerDims (in_dim layer_width : ℤ) (skips : List ℤ) (i : ℕ) : Option (ℕ × ℕ) :=
  if i = 0 then
    if (0 : ℤ) ∈ skips then none else mkLinearDims in_dim layer_width
  else if (i : ℤ) ∈ skips then mkLinearDims (layer_width + in_dim) layer_width
  else mkLinearDims layer_width layer_width

/-- Embeds `for i in range(self.num_layers - 1)`: the hidden-layer loop. -/
def buildHidden (in_dim layer_width : ℤ) (skips : List ℤ) : ℕ → Option (List (ℕ × ℕ))
  | 0 => some []
  | n + 1 => do
      let prev ← buildHidden in_dim layer_width skips n
      let d ← hiddenLayerDims in_dim layer_width skips n
      pure (prev ++ [d])

/-- Embeds `MLP.build_nn_modules`: the dimension pairs of the built layer stack. -/
def build_nn_modules (in_dim num_layers layer_width out_dim : ℤ) (skips : List ℤ) :
    Option (List (ℕ × ℕ)) :=
  if num_layers = 1 then (mkLinearDims in_dim out_dim).map (fun d => [d])
  else do
    let hidden ← buildHidden in_dim layer_width skips (num_layers - 1).toNat
    let last ← mkLinearDims layer_width out_dim
    pure (hidden ++ [last])

/-- The state of a constructed `MLP` instance: the stored configuration
fields and the dimension pairs of the owned layer stack. -/
structure MLPState where
  in_dim : ℤ
  out_dim : ℤ
  num_layers : ℤ
  layer_width : ℤ
  skip_connections : List ℤ
  activation : Option (ℚ → ℚ)
  out_activation : Option (ℚ → ℚ)
  layerDims : List (ℕ × ℕ)

namespace MLP

/-- Embeds `MLP.__init__`: `assert in_dim > 0`, resolve `out_dim` (defaulting to
`layer_width`), store the configuration and call `build_nn_modules`. -/
def construct (cfg : MLPConfig) : Option MLPState :=
  if cfg.in_dim ≤ 0 then none
  else
    (build_nn_modules cfg.in_dim cfg.num_layers cfg.layer_width
        (cfg.out_dim.getD cfg.layer_width) cfg.skip_connections).map
      (fun dims =>
        ⟨cfg.in_dim, cfg.out_dim.getD cfg.layer_width, cfg.num_layers, cfg.layer_width,
          cfg.skip_connections, cfg.activation, cfg.out_activation, dims⟩)

/-- The declared dimension pairs of a layer stack. -/
def dimsOf (layers : List Linear) : List (ℕ × ℕ) :=
  layers.map (fun l => (l.inFeatures, l.outFeatures))

/-- The actual layer stack `layers` realizes the built dimension pairs. -/
def matchesDims (layers : List Linear) (dims : List (ℕ × ℕ)) : Prop :=
  dimsOf layers = dims

/-- The loop of `MLP.forward`: for each layer at index `i`, concatenate the
original input when `i ∈ skip_connections`, apply the linear unit, then the
activation when present.  The second component counts how many times the
concatenation branch ran (0 for the source semantics of the result). -/
def forwardSteps (skips : List ℤ) (act : Option (ℚ → ℚ)) (input : Tensor) :
    List Linear → ℕ → Tensor → Option Tensor × ℕ
  | [], _, x => (some x, 0)
  | l :: rest, i, x =>
      let c0 : ℕ := if (i : ℤ) ∈ skips then 1 else 0
      let xc : Option Tensor := if (i : ℤ) ∈ skips then catLast input x else some x
      match xc with
      | none => (none, c0)
      | some x1 =>
          match linearApply l x1 with
          | none => (none, c0)
          | some x2 =>
              let res := forwardSteps skips act input rest (i + 1) (applyAct act x2)
              (res.1, c0 + res.2)

/-- Embeds `MLP.forward`: run the layer stack on the input tensor. -/
def forward (st : MLPState) (layers : List Linear) (input : Tensor) : Option Tensor :=
  (forwardSteps st.skip_connections st.activation input layers 0 input).1

/-- How many times the concatenation branch of `MLP.forward` ran. -/
def catCount (st : MLPState) (layers : List Linear) (input : Tensor) : ℕ :=
  (forwardSteps st.skip_connections st.activation input layers 0 input).2

end MLP

/-- Modelled from the spec: "output equals the pure composition of affine
transforms" — the plain composition of the stack's affine maps with input
concatenation at skip indices and no element-wise non-linearity anywhere. -/
def affineCompose (skips : List ℤ) (input : Tensor) :
    List Linear → ℕ → Tensor → Option Tensor
  | [], _, x => some x
  | l :: rest, i, x => do
      let x1 ← if (i : ℤ) ∈ skips then catLast input x else some x
      let x2 ← linearApply l x1
      affineCompose skips input rest (i + 1) x2

/-!
Helper notions for the proofs: the dimension pair each hidden-loop
iteration appends when it succeeds, the shape-compatibility chain a layer
stack imposes on the running tensor, and the trailing dimension the stack
ends with.
-/

/-- The dimension pair appended by iteration `i` of the hidden-layer loop
of `build_nn_modules` when it succeeds. -/
def hd (in_dim layer_width : ℤ) (skips : List ℤ) (i : ℕ) : ℕ × ℕ :=
  if i = 0 then (in_dim.toNat, layer_width.toNat)
  else if (i : ℤ) ∈ skips then ((layer_width + in_dim).toNat, layer_width.toNat)
  else (layer_width.toNat, layer_width.toNat)

/-- Shape compatibility of a dimension chain starting at index `i` with
running width `w` (the original input having width `inW`): each unit's
declared input width equals the running width, enlarged by `inW` at a skip
index. -/
def chainOK (skips : List ℤ) (inW : ℕ) : List (ℕ × ℕ) → ℕ → ℕ → Prop
  | [], _, _ => True
  | d :: rest, i, w =>
      d.1 = (if (i : ℤ) ∈ skips then inW + w else w) ∧ chainOK skips inW rest (i + 1) d.2

/-- The trailing feature dimension after running a dimension chain,
starting from width `w`. -/
def endFeat : List (ℕ × ℕ) → ℕ → ℕ
  | [], w => w
  | d :: rest, _ => endFeat rest d.2

lemma endFeat_append_single : ∀ (ds : List (ℕ × ℕ)) (d : ℕ × ℕ) (w : ℕ),
    endFeat (ds ++ [d]) w = d.2
  | [], _, _ => rfl
  | e :: ds, d, _ => endFeat_append_single ds d e.2

lemma mkLinearDims_eq {a b : ℤ} (ha : 0 ≤ a) (hb : 0 ≤ b) :
    mkLinearDims a b = some (a.toNat, b.toNat) := by
  simp [mkLinearDims, ha, hb]

lemma mkLinearDims_some {a b : ℤ} {d : ℕ × ℕ} (h : mkLinearDims a b = some d) :
    0 ≤ a ∧ 0 ≤ b ∧ d = (a.toNat, b.toNat) := by
  unfold mkLinearDims at h
  split at h
  · exact ⟨by tauto, by tauto, by simpa using h.symm⟩
  · exact absurd h (by simp)

lemma hiddenLayerDims_eq {in_dim layer_width : ℤ} {skips : List ℤ}
    (ha : 0 ≤ in_dim) (hb : 0 ≤ layer_width) (h0 : (0 : ℤ) ∉ skips) (i : ℕ) :
    hiddenLayerDims in_dim layer_width skips i = some (hd in_dim layer_width skips i) := by
  unfold hiddenLayerDims hd
  by_cases hi : i = 0
  · simp [hi, h0, mkLinearDims_eq ha hb]
  · by_cases hs : (i : ℤ) ∈ skips
    · simp [hi, hs, mkLinearDims_eq (by omega : (0 : ℤ) ≤ layer_width + in_dim) hb]
    · simp [hi, hs, mkLinearDims_eq hb hb]

lemma buildHidden_eq {in_dim layer_width : ℤ} {skips : List ℤ}
    (ha : 0 ≤ in_dim) (hb : 0 ≤ layer_width) (h0 : (0 : ℤ) ∉ skips) :
    ∀ n, buildHidden in_dim layer_width skips n =
      some ((List.range n).map (hd in_dim layer_width skips))
  | 0 => rfl
  | n + 1 => by
      rw [buildHidden, buildHidden_eq ha hb h0 n, List.range_succ]
      simp [hiddenLayerDims_eq ha hb h0 n]

lemma buildHidden_none {in_dim layer_width : ℤ} {skips : List ℤ}
    (h0 : (0 : ℤ) ∈ skips) : ∀ n, 1 ≤ n → buildHidden in_dim layer_width skips n = none
  | 0, h => absurd h (by omega)
  | 1, _ => by simp [buildHidden, hiddenLayerDims, h0]
  | n + 2, _ => by
      rw [buildHidden, buildHidden_none h0 (n + 1) (by omega)]
      rfl

lemma buildHidden_some_not_mem {in_dim layer_width : ℤ} {skips : List ℤ}
    {hs : List (ℕ × ℕ)} {n : ℕ} (hn : 1 ≤ n)
    (h : buildHidden in_dim layer_width skips n = some hs) : (0 : ℤ) ∉ skips := by
  intro h0
  rw [buildHidden_none h0 n hn] at h
  exact absurd h (by simp)

lemma construct_inv {cfg : MLPConfig} {st : MLPState}
    (hc : MLP.construct cfg = some st) :
    0 < cfg.in_dim ∧
    build_nn_modules cfg.in_dim cfg.num_layers cfg.layer_width
      (cfg.out_dim.getD cfg.layer_width) cfg.skip_connections = some st.layerDims ∧
    st = ⟨cfg.in_dim, cfg.out_dim.getD cfg.layer_width, cfg.num_layers, cfg.layer_width,
          cfg.skip_connections, cfg.activation, cfg.out_activation, st.layerDims⟩ := by
  unfold MLP.construct at hc
  by_cases h : cfg.in_dim ≤ 0
  · rw [if_pos h] at hc
    exact absurd hc (by simp)
  · rw [if_neg h] at hc
    rcases Option.map_eq_some'.mp hc with ⟨dims, hb, hst⟩
    refine ⟨by omega, ?_, ?_⟩
    · rw [← hst]
      exact hb
    · rw [← hst]

lemma build_nn_modules_ne_nil {in_dim num_layers layer_width out_dim : ℤ}
    {skips : List ℤ} {dims : List (ℕ × ℕ)}
    (h : build_nn_modules in_dim num_layers layer_width out_dim skips = some dims) :
    dims ≠ [] := by
  unfold build_nn_modules at h
  split at h
  · rcases Option.map_eq_some'.mp h with ⟨d, _, hd2⟩
    rw [← hd2]
    simp
  · rcases Option.bind_eq_some.mp h with ⟨hidden, _, h2⟩
    rcases Option.bind_eq_some.mp h2 with ⟨last, _, h3⟩
    have h4 : hidden ++ [last] = dims := by simpa using h3
    rw [← h4]
    simp

lemma applyAct_batchDims (act : Option (ℚ → ℚ)) (t : Tensor) :
    (applyAct act t).batchDims = t.batchDims := by
  cases act <;> rfl

lemma applyAct_feat (act : Option (ℚ → ℚ)) (t : Tensor) :
    (applyAct act t).feat = t.feat := by
  cases act <;> rfl

lemma applyAct_length (act : Option (ℚ → ℚ)) (t : Tensor) :
    (applyAct act t).data.length = t.data.length := by
  cases act <;> simp [applyAct, actApply]

lemma applyAct_rows (act : Option (ℚ → ℚ)) (t : Tensor)
    (h : ∀ r ∈ t.data, r.length = t.feat) :
    ∀ r ∈ (applyAct act t).data, r.length = (applyAct act t).feat := by
  cases act with
  | none => simpa using h
  | some f =>
      intro r hr
      simp only [applyAct, actApply] at hr ⊢
      rcases List.mem_map.mp hr with ⟨r0, hr0, hmap⟩
      rw [← hmap, List.length_map]
      exact h r0 hr0

lemma forwardSteps_cons (skips : List ℤ) (act : Option (ℚ → ℚ))
    (input : Tensor) (l : Linear) (rest : List Linear) (i : ℕ) (x : Tensor) :
    MLP.forwardSteps skips act input (l :: rest) i x =
      match (if (i : ℤ) ∈ skips then catLast input x else some x) with
      | none => (none, if (i : ℤ) ∈ skips then 1 else 0)
      | some x1 =>
          match linearApply l x1 with
          | none => (none, if (i : ℤ) ∈ skips then 1 else 0)
          | some x2 =>
              ((MLP.forwardSteps skips act input rest (i + 1) (applyAct act x2)).1,
                (if (i : ℤ) ∈ skips then 1 else 0) +
                  (MLP.forwardSteps skips act input rest (i + 1) (applyAct act x2)).2) :=
  rfl

lemma forwardSteps_count_zero (skips : List ℤ) (act : Option (ℚ → ℚ)) (input : Tensor) :
    ∀ (ls : List Linear) (i : ℕ) (x : Tensor),
      (∀ k : ℕ, k < ls.length → ((i + k : ℕ) : ℤ) ∉ skips) →
      (MLP.forwardSteps skips act input ls i x).2 = 0
  | [], _, _, _ => rfl
  | l :: rest, i, x, h => by
      have h0 : ((i : ℕ) : ℤ) ∉ skips := by simpa using h 0 (by simp)
      rw [forwardSteps_cons]
      simp only [if_neg h0]
      cases hl : linearApply l x with
      | none => rfl
      | some x2 =>
          have htail := forwardSteps_count_zero skips act input rest (i + 1) (applyAct act x2)
            (fun k hk => by
              have he : (i + 1) + k = i + (k + 1) := by omega
              rw [he]
              exact h (k + 1) (by simp only [List.length_cons]; omega))
          simpa using htail

lemma forwardSteps_act_last (skips : List ℤ) (f : ℚ → ℚ) (input : Tensor) :
    ∀ (ls : List Linear) (i : ℕ) (x : Tensor) (out : Tensor), ls ≠ [] →
      (MLP.forwardSteps skips (some f) input ls i x).1 = some out →
      ∃ y, out = actApply f y
  | [], _, _, _, hne, _ => absurd rfl hne
  | [l], i, x, out, _, h => by
      rw [forwardSteps_cons] at h
      cases hxc : (if (i : ℤ) ∈ skips then catLast input x else some x) with
      | none => simp [hxc] at h
      | some x1 =>
          simp only [hxc] at h
          cases hl : linearApply l x1 with
          | none => simp [hl] at h
          | some x2 =>
              simp only [hl, MLP.forwardSteps] at h
              exact ⟨x2, (Option.some_inj.mp h).symm⟩
  | l :: l' :: rest, i, x, out, _, h => by
      rw [forwardSteps_cons] at h
      cases hxc : (if (i : ℤ) ∈ skips then catLast input x else some x) with
      | none => simp [hxc] at h
      | some x1 =>
          simp only [hxc] at h
          cases hl : linearApply l x1 with
          | none => simp [hl] at h
          | some x2 =>
              simp only [hl] at h
              exact forwardSteps_act_last skips f input (l' :: rest) (i + 1)
                (applyAct (some f) x2) out (by simp) h

lemma catLast_spec {a b : Tensor} (h : a.batchDims = b.batchDims)
    (ha : ∀ r ∈ a.data, r.length = a.feat) (hb : ∀ r ∈ b.data, r.length = b.feat)
    (hl : b.data.length = a.data.length) :
    ∃ u, catLast a b = some u ∧ u.batchDims = a.batchDims ∧ u.feat = a.feat + b.feat ∧
      u.data.length = a.data.length ∧ ∀ r ∈ u.data, r.length = a.feat + b.feat := by
  refine ⟨⟨a.batchDims, a.feat + b.feat, (a.data.zip b.data).map (fun p => p.1 ++ p.2)⟩,
    by rw [catLast, if_pos h], rfl, rfl, ?_, ?_⟩
  · simp [hl]
  · intro r hr
    simp only [List.mem_map] at hr
    rcases hr with ⟨p, hp, hrp⟩
    have hmem := List.of_mem_zip hp
    rw [← hrp, List.length_append, ha p.1 hmem.1, hb p.2 hmem.2]

lemma linearApply_spec {l : Linear} {t : Tensor} (h : t.feat = l.inFeatures) :
    ∃ u, linearApply l t = some u ∧ u.batchDims = t.batchDims ∧ u.feat = l.outFeatures ∧
      u.data.length = t.data.length ∧ ∀ r ∈ u.data, r.length = l.outFeatures := by
  refine ⟨⟨t.batchDims, l.outFeatures,
      t.data.map (fun row =>
        (List.range l.outFeatures).map (fun j =>
          l.bias j + ((List.range l.inFeatures).map
            (fun k => l.weight j k * row.getD k 0)).sum))⟩,
    by rw [linearApply, if_pos h], rfl, rfl, by simp, ?_⟩
  intro r hr
  simp only [List.mem_map] at hr
  rcases hr with ⟨row, _, hrow⟩
  rw [← hrow]
  simp

lemma forwardSteps_total (skips : List ℤ) (act : Option (ℚ → ℚ)) (input : Tensor)
    (hin : ∀ r ∈ input.data, r.length = input.feat) :
    ∀ (ls : List Linear) (i : ℕ) (x : Tensor),
      x.batchDims = input.batchDims → x.data.length = input.data.length →
      (∀ r ∈ x.data, r.length = x.feat) →
      chainOK skips input.feat (MLP.dimsOf ls) i x.feat →
      ∃ out, (MLP.forwardSteps skips act input ls i x).1 = some out ∧
        out.batchDims = input.batchDims ∧ out.data.length = input.data.length ∧
        (∀ r ∈ out.data, r.length = out.feat) ∧
        out.feat = endFeat (MLP.dimsOf ls) x.feat
  | [], _, x, hbd, hlen, hrows, _ => ⟨x, rfl, hbd, hlen, hrows, rfl⟩
  | l :: rest, i, x, hbd, hlen, hrows, hchain => by
      have hin1 : l.inFeatures = (if (i : ℤ) ∈ skips then input.feat + x.feat else x.feat) :=
        hchain.1
      have hrest : chainOK skips input.feat (MLP.dimsOf rest) (i + 1) l.outFeatures :=
        hchain.2
      rw [forwardSteps_cons]
      by_cases hm : (i : ℤ) ∈ skips
      · obtain ⟨u, hcat, hubd, hufeat, hulen, hurows⟩ :=
          catLast_spec hbd.symm hin hrows hlen
        have hfeat : u.feat = l.inFeatures := by rw [hufeat, hin1, if_pos hm]
        obtain ⟨v, hlin, hvbd, hvfeat, hvlen, hvrows⟩ := linearApply_spec hfeat
        obtain ⟨out, hfs, hobd, holen, horows, hofeat⟩ :=
          forwardSteps_total skips act input hin rest (i + 1) (applyAct act v)
            (by rw [applyAct_batchDims, hvbd, hubd])
            (by rw [applyAct_length, hvlen, hulen])
            (applyAct_rows act v (by rw [hvfeat]; exact hvrows))
            (by rw [applyAct_feat, hvfeat]; exact hrest)
        refine ⟨out, ?_, hobd, holen, horows, ?_⟩
        · rw [if_pos hm]
          simp only [hcat, hlin]
          exact hfs
        · rw [hofeat, applyAct_feat, hvfeat]
          rfl
      · have hfeat : x.feat = l.inFeatures := by rw [hin1, if_neg hm]
        obtain ⟨v, hlin, hvbd, hvfeat, hvlen, hvrows⟩ := linearApply_spec hfeat
        obtain ⟨out, hfs, hobd, holen, horows, hofeat⟩ :=
          forwardSteps_total skips act input hin rest (i + 1) (applyAct act v)
            (by rw [applyAct_batchDims, hvbd, hbd])
            (by rw [applyAct_length, hvlen, hlen])
            (applyAct_rows act v (by rw [hvfeat]; exact hvrows))
            (by rw [applyAct_feat, hvfeat]; exact hrest)
        refine ⟨out, ?_, hobd, holen, horows, ?_⟩
        · rw [if_neg hm]
          simp only [hlin]
          exact hfs
        · rw [hofeat, applyAct_feat, hvfeat]
          rfl

lemma hd_eq_of_pos {in_dim layer_width : ℤ} {skips : List ℤ}
    (ha : 0 ≤ in_dim) (hb : 0 ≤ layer_width) {i : ℕ} (hi : i ≠ 0) :
    hd in_dim layer_width skips i =
      if (i : ℤ) ∈ skips then (layer_width.toNat + in_dim.toNat, layer_width.toNat)
      else (layer_width.toNat, layer_width.toNat) := by
  unfold hd
  rw [if_neg hi]
  by_cases hs : (i : ℤ) ∈ skips
  · rw [if_pos hs, if_pos hs, Int.toNat_add hb ha]
  · rw [if_neg hs, if_neg hs]

lemma chainOK_suffix {skips : List ℤ} {in_dim layer_width : ℤ}
    (ha : 0 ≤ in_dim) (hb : 0 ≤ layer_width) (outn : ℕ) :
    ∀ (cnt j : ℕ), 1 ≤ j → ((j + cnt : ℕ) : ℤ) ∉ skips →
      chainOK skips in_dim.toNat
        (((List.range' j cnt).map (hd in_dim layer_width skips)) ++
          [(layer_width.toNat, outn)]) j layer_width.toNat
  | 0, j, _, hlast => by
      simp only [List.range', List.map_nil, List.nil_append]
      refine ⟨?_, trivial⟩
      rw [if_neg (by simpa using hlast)]
  | cnt + 1, j, hj, hlast => by
      rw [List.range'_succ, List.map_cons, List.cons_append]
      have hdj := @hd_eq_of_pos in_dim layer_width skips ha hb j (by omega)
      constructor
      · rw [hdj]
        by_cases hs : (j : ℤ) ∈ skips
        · rw [if_pos hs, if_pos hs]
          simp [Nat.add_comm]
        · rw [if_neg hs, if_neg hs]
      · have h2 : (hd in_dim layer_width skips j).2 = layer_width.toNat := by
          rw [hdj]
          split <;> rfl
        rw [h2]
        exact chainOK_suffix ha hb outn cnt (j + 1) (by omega)
          (by
            have he : (j + 1) + cnt = j + (cnt + 1) := by omega
            rw [he]
            exact hlast)

lemma construct_eq_multi {cfg : MLPConfig} {n : ℕ}
    (hn : cfg.num_layers = (n : ℤ)) (h2 : 2 ≤ n) (hin : 0 < cfg.in_dim)
    (hlw : 0 ≤ cfg.layer_width) (hod : 0 ≤ cfg.out_dim.getD cfg.layer_width)
    (h0 : (0 : ℤ) ∉ cfg.skip_connections) :
    MLP.construct cfg = some
      ⟨cfg.in_dim, cfg.out_dim.getD cfg.layer_width, cfg.num_layers, cfg.layer_width,
        cfg.skip_connections, cfg.activation, cfg.out_activation,
        (List.range (n - 1)).map (hd cfg.in_dim cfg.layer_width cfg.skip_connections) ++
          [(cfg.layer_width.toNat, (cfg.out_dim.getD cfg.layer_width).toNat)]⟩ := by
  unfold MLP.construct build_nn_modules
  rw [if_neg (by omega : ¬cfg.in_dim ≤ 0)]
  rw [if_neg (by rw [hn]; omega : ¬cfg.num_layers = 1)]
  have hk : (cfg.num_layers - 1).toNat = n - 1 := by omega
  rw [hk, buildHidden_eq (by omega) hlw h0 (n - 1)]
  simp [mkLinearDims_eq hlw hod]

/-- C1: for a valid configuration with `num_layers = n ≥ 2`, the stack has
exactly `n` units; the first maps `in_dim → layer_width`, the last maps
`layer_width → out_dim`, and each interior unit at index `i` maps
`(layer_width + in_dim) → layer_width` when `i ∈ skip_connections` and
`layer_width → layer_width` otherwise. -/
theorem build_stack_structure (cfg : MLPConfig) (n : ℕ)
    (hn : cfg.num_layers = (n : ℤ)) (h2 : 2 ≤ n) (hin : 0 < cfg.in_dim)
    (hlw : 0 ≤ cfg.layer_width) (hod : 0 ≤ cfg.out_dim.getD cfg.layer_width)
    (h0 : (0 : ℤ) ∉ cfg.skip_connections) :
    ∃ st, MLP.construct cfg = some st ∧
      st.layerDims.length = n ∧
      st.layerDims.getD 0 (0, 0) = (cfg.in_dim.toNat, cfg.layer_width.toNat) ∧
      st.layerDims.getD (n - 1) (0, 0) =
        (cfg.layer_width.toNat, (cfg.out_dim.getD cfg.layer_width).toNat) ∧
      ∀ i : ℕ, 1 ≤ i → i ≤ n - 2 →
        st.layerDims.getD i (0, 0) =
          if (i : ℤ) ∈ cfg.skip_connections
          then ((cfg.layer_width + cfg.in_dim).toNat, cfg.layer_width.toNat)
          else (cfg.layer_width.toNat, cfg.layer_width.toNat) := by
  refine ⟨_, construct_eq_multi hn h2 hin hlw hod h0, ?_, ?_, ?_, ?_⟩
  · simp
    omega
  · rw [List.getD_append _ _ _ _ (by simp; omega)]
    rw [List.getD_eq_getElem _ _ (by simp; omega)]
    simp only [List.getElem_map, List.getElem_range]
    unfold hd
    rw [if_pos rfl]
  · rw [List.getD_append_right _ _ _ _ (by simp)]
    simp
  · intro i h1 hi2
    rw [List.getD_append _ _ _ _ (by simp; omega)]
    rw [List.getD_eq_getElem _ _ (by simp; omega)]
    simp only [List.getElem_map, List.getElem_range]
    unfold hd
    rw [if_neg (by omega : ¬i = 0)]

/-- Concrete configuration for the C1 witness: `in_dim = 2`, `num_layers = 4`,
`layer_width = 5`, `out_dim = 3`, `skip_connections = (2,)`. -/
def cfgMulti : MLPConfig := ⟨2, 4, 5, some 3, [2], none, none⟩

/-- Witness for C1 at `cfgMulti`. -/
theorem build_stack_structure_witness :
    ∃ st, MLP.construct cfgMulti = some st ∧
      st.layerDims.length = 4 ∧
      st.layerDims.getD 0 (0, 0) = (cfgMulti.in_dim.toNat, cfgMulti.layer_width.toNat) ∧
      st.layerDims.getD 3 (0, 0) =
        (cfgMulti.layer_width.toNat, (cfgMulti.out_dim.getD cfgMulti.layer_width).toNat) ∧
      ∀ i : ℕ, 1 ≤ i → i ≤ 2 →
        st.layerDims.getD i (0, 0) =
          if (i : ℤ) ∈ cfgMulti.skip_connections
          then ((cfgMulti.layer_width + cfgMulti.in_dim).toNat, cfgMulti.layer_width.toNat)
          else (cfgMulti.layer_width.toNat, cfgMulti.layer_width.toNat) :=
  build_stack_structure cfgMulti 4 rfl (by omega) (by decide) (by decide) (by decide)
    (by decide)

/-- C9: constructing with `in_dim ≤ 0` fails (the `assert self.in_dim > 0`
of `MLP.__init__` fires before the layer stack is built). -/
theorem nonpositive_in_dim_rejected (cfg : MLPConfig) (h : cfg.in_dim ≤ 0) :
    MLP.construct cfg = none := by
  unfold MLP.construct
  rw [if_pos h]

/-- Concrete configuration for the C9 witness: `in_dim = -3`. -/
def cfgNegIn : MLPConfig := ⟨-3, 2, 4, none, [], none, none⟩

/-- Witness for C9 at `cfgNegIn`. -/
theorem nonpositive_in_dim_rejected_witness : MLP.construct cfgNegIn = none :=
  nonpositive_in_dim_rejected cfgNegIn (by decide)

/-- Single-layer configuration with `0 ∈ skip_connections`:
`in_dim = 1`, `num_layers = 1`, `layer_width = 1`. -/
def cfgSkip0Single : MLPConfig := ⟨1, 1, 1, none, [0], none, none⟩

/-- The state `MLP.construct cfgSkip0Single` actually produces. -/
def stSkip0Single : MLPState := ⟨1, 1, 1, 1, [0], none, none, [(1, 1)]⟩

/-- Counterexample to C3 as stated: with `num_layers = 1` the hidden-layer
loop of `build_nn_modules` never runs, so the assert guarding
`0 ∈ skip_connections` is never reached and construction succeeds. -/
theorem skip_zero_single_layer_accepted :
    MLP.construct cfgSkip0Single = some stSkip0Single := rfl

/-- C3 (amended): for `num_layers ≥ 2`, constructing with `0` present in
`skip_connections` always fails. -/
theorem skip_zero_rejected_multilayer (cfg : MLPConfig)
    (h2 : 2 ≤ cfg.num_layers) (h0 : (0 : ℤ) ∈ cfg.skip_connections) :
    MLP.construct cfg = none := by
  unfold MLP.construct build_nn_modules
  by_cases hin : cfg.in_dim ≤ 0
  · rw [if_pos hin]
  · rw [if_neg hin]
    rw [if_neg (by omega : ¬cfg.num_layers = 1)]
    rw [buildHidden_none h0 (cfg.num_layers - 1).toNat (by omega)]
    rfl

/-- Concrete configuration for the C3 witness: `num_layers = 3`,
`skip_connections = (0,)`. -/
def cfgSkip0Multi : MLPConfig := ⟨1, 3, 2, none, [0], none, none⟩

/-- Witness for the amended C3 at `cfgSkip0Multi`. -/
theorem skip_zero_rejected_multilayer_witness : MLP.construct cfgSkip0Multi = none :=
  skip_zero_rejected_multilayer cfgSkip0Multi (by decide) (by decide)

/-- C10: with `num_layers = 0` (violating the documented precondition) the
hidden-layer loop runs zero times, no error is raised, and the stack is the
single unit `layer_width → out_dim`. -/
theorem zero_layers_builds_one_unit (cfg : MLPConfig)
    (hin : 0 < cfg.in_dim) (hnl : cfg.num_layers = 0)
    (hsk : cfg.skip_connections = [])
    (hlw : 0 ≤ cfg.layer_width) (hod : 0 ≤ cfg.out_dim.getD cfg.layer_width) :
    ∃ st, MLP.construct cfg = some st ∧
      st.layerDims = [(cfg.layer_width.toNat, (cfg.out_dim.getD cfg.layer_width).toNat)] := by
  refine ⟨⟨cfg.in_dim, cfg.out_dim.getD cfg.layer_width, cfg.num_layers, cfg.layer_width,
    cfg.skip_connections, cfg.activation, cfg.out_activation,
    [(cfg.layer_width.toNat, (cfg.out_dim.getD cfg.layer_width).toNat)]⟩, ?_, rfl⟩
  unfold MLP.construct build_nn_modules
  rw [if_neg (by omega : ¬cfg.in_dim ≤ 0)]
  rw [if_neg (by omega : ¬cfg.num_layers = 1)]
  have hk : (cfg.num_layers - 1).toNat = 0 := by omega
  rw [hk]
  simp [buildHidden, mkLinearDims_eq hlw hod]

/-- Concrete configuration for the C10 witness: `num_layers = 0`,
`layer_width = 3`, `out_dim = 4`. -/
def cfgZeroLayers : MLPConfig := ⟨2, 0, 3, some 4, [], none, none⟩

/-- Witness for C10 at `cfgZeroLayers`. -/
theorem zero_layers_builds_one_unit_witness :
    ∃ st, MLP.construct cfgZeroLayers = some st ∧
      st.layerDims =
        [(cfgZeroLayers.layer_width.toNat,
          (cfgZeroLayers.out_dim.getD cfgZeroLayers.layer_width).toNat)] :=
  zero_layers_builds_one_unit cfgZeroLayers (by decide) (by decide) (by decide) (by decide)
    (by decide)

/-- C6: with `num_layers = 1` and a valid configuration the stack is the
single unit `in_dim → out_dim`; the layer topology is the same whatever
`skip_connections` holds, and the concatenation branch never runs during
evaluation. -/
theorem single_layer_stack (cfg : MLPConfig) (hnl : cfg.num_layers = 1)
    (hin : 0 < cfg.in_dim) (hod : 0 ≤ cfg.out_dim.getD cfg.layer_width)
    (h0 : (0 : ℤ) ∉ cfg.skip_connections) :
    ∃ st, MLP.construct cfg = some st ∧
      st.layerDims = [(cfg.in_dim.toNat, (cfg.out_dim.getD cfg.layer_width).toNat)] ∧
      (∀ sk : List ℤ, ∃ st2, MLP.construct { cfg with skip_connections := sk } = some st2 ∧
        st2.layerDims = st.layerDims) ∧
      (∀ layers input, MLP.matchesDims layers st.layerDims →
        MLP.catCount st layers input = 0) := by
  have hbuild : ∀ sk : List ℤ,
      MLP.construct { cfg with skip_connections := sk } = some
        ⟨cfg.in_dim, cfg.out_dim.getD cfg.layer_width, cfg.num_layers, cfg.layer_width, sk,
          cfg.activation, cfg.out_activation,
          [(cfg.in_dim.toNat, (cfg.out_dim.getD cfg.layer_width).toNat)]⟩ := by
    intro sk
    unfold MLP.construct build_nn_modules
    rw [if_neg (by simpa using (by omega : ¬cfg.in_dim ≤ 0))]
    simp only
    rw [if_pos (by simpa using hnl)]
    simp [mkLinearDims_eq (by omega : (0 : ℤ) ≤ cfg.in_dim) (by simpa using hod)]
  refine ⟨⟨cfg.in_dim, cfg.out_dim.getD cfg.layer_width, cfg.num_layers, cfg.layer_width,
    cfg.skip_connections, cfg.activation, cfg.out_activation,
    [(cfg.in_dim.toNat, (cfg.out_dim.getD cfg.layer_width).toNat)]⟩, ?_, rfl, ?_, ?_⟩
  · exact hbuild cfg.skip_connections
  · intro sk
    exact ⟨_, hbuild sk, rfl⟩
  · intro layers input hm
    have hlen : layers.length = 1 := by
      have := congrArg List.length hm
      simpa [MLP.dimsOf] using this
    unfold MLP.catCount
    exact forwardSteps_count_zero cfg.skip_connections cfg.activation input layers 0 input
      (fun k hk => by
        have hk0 : k = 0 := by omega
        subst hk0
        simpa using h0)

/-- Concrete configuration for the C6 witness: `num_layers = 1`,
`skip_connections = (7,)`. -/
def cfgSingle : MLPConfig := ⟨2, 1, 5, some 3, [7], none, none⟩

/-- Witness for C6 at `cfgSingle`. -/
theorem single_layer_stack_witness :
    ∃ st, MLP.construct cfgSingle = some st ∧
      st.layerDims = [(cfgSingle.in_dim.toNat, (cfgSingle.out_dim.getD cfgSingle.layer_width).toNat)] ∧
      (∀ sk : List ℤ, ∃ st2, MLP.construct { cfgSingle with skip_connections := sk } = some st2 ∧
        st2.layerDims = st.layerDims) ∧
      (∀ layers input, MLP.matchesDims layers st.layerDims →
        MLP.catCount st layers input = 0) :=
  single_layer_stack cfgSingle rfl (by decide) (by decide) (by decide)

lemma construct_eq_single {cfg : MLPConfig} (hnl : cfg.num_layers = 1)
    (hin : 0 < cfg.in_dim) (hod : 0 ≤ cfg.out_dim.getD cfg.layer_width) :
    MLP.construct cfg = some
      ⟨cfg.in_dim, cfg.out_dim.getD cfg.layer_width, cfg.num_layers, cfg.layer_width,
        cfg.skip_connections, cfg.activation, cfg.out_activation,
        [(cfg.in_dim.toNat, (cfg.out_dim.getD cfg.layer_width).toNat)]⟩ := by
  unfold MLP.construct build_nn_modules
  rw [if_neg (by omega : ¬cfg.in_dim ≤ 0), if_pos hnl]
  simp [mkLinearDims_eq (by omega : (0 : ℤ) ≤ cfg.in_dim) hod]

lemma construct_eq_nonpos {cfg : MLPConfig} (hnl : cfg.num_layers ≤ 0)
    (hin : 0 < cfg.in_dim) (hlw : 0 ≤ cfg.layer_width)
    (hod : 0 ≤ cfg.out_dim.getD cfg.layer_width) :
    MLP.construct cfg = some
      ⟨cfg.in_dim, cfg.out_dim.getD cfg.layer_width, cfg.num_layers, cfg.layer_width,
        cfg.skip_connections, cfg.activation, cfg.out_activation,
        [(cfg.layer_width.toNat, (cfg.out_dim.getD cfg.layer_width).toNat)]⟩ := by
  unfold MLP.construct build_nn_modules
  rw [if_neg (by omega : ¬cfg.in_dim ≤ 0)]
  rw [if_neg (by omega : ¬cfg.num_layers = 1)]
  have hk : (cfg.num_layers - 1).toNat = 0 := by omega
  rw [hk]
  simp [buildHidden, mkLinearDims_eq hlw hod]

/-- C4 (amended): skip indices that are at least `num_layers` (not
`num_layers - 1`) are accepted at construction and the concatenation
branch never runs during evaluation.  An index equal to `num_layers - 1`
is also accepted but does fire (see the counterexample). -/
theorem skips_at_least_num_layers_never_fire (cfg : MLPConfig)
    (hin : 0 < cfg.in_dim) (hlw : 0 ≤ cfg.layer_width)
    (hod : 0 ≤ cfg.out_dim.getD cfg.layer_width)
    (h0 : (0 : ℤ) ∉ cfg.skip_connections)
    (hge : ∀ s ∈ cfg.skip_connections, cfg.num_layers ≤ s) :
    ∃ st, MLP.construct cfg = some st ∧
      ∀ layers input, MLP.matchesDims layers st.layerDims →
        MLP.catCount st layers input = 0 := by
  have hcnt : ∀ st : MLPState, st.skip_connections = cfg.skip_connections →
      st.activation = cfg.activation →
      ((st.layerDims.length : ℤ) ≤ cfg.num_layers ∨ st.layerDims.length = 1) →
      ∀ layers input, MLP.matchesDims layers st.layerDims →
        MLP.catCount st layers input = 0 := by
    intro st hsk hact hlen layers input hm
    have hlay : layers.length = st.layerDims.length := by
      have := congrArg List.length hm
      simpa [MLP.dimsOf] using this
    unfold MLP.catCount
    rw [hsk, hact]
    apply forwardSteps_count_zero
    intro k hk
    intro hmem
    have hmem' : ((k : ℕ) : ℤ) ∈ cfg.skip_connections := by simpa using hmem
    rcases Nat.eq_zero_or_pos k with hk0 | hkpos
    · subst hk0
      exact h0 (by simpa using hmem')
    · have hge' := hge _ hmem'
      rcases hlen with hlen | hlen
      · have : k < st.layerDims.length := by omega
        omega
      · omega
  rcases lt_trichotomy cfg.num_layers 1 with hlt | heq | hgt
  · refine ⟨_, construct_eq_nonpos (by omega) hin hlw hod, hcnt _ rfl rfl (Or.inr rfl)⟩
  · refine ⟨_, construct_eq_single heq hin hod, hcnt _ rfl rfl (Or.inr rfl)⟩
  · have hn : cfg.num_layers = (cfg.num_layers.toNat : ℤ) := by omega
    refine ⟨_, construct_eq_multi hn (by omega) hin hlw hod h0, hcnt _ rfl rfl (Or.inl ?_)⟩
    simp only [List.length_append, List.length_map, List.length_range, List.length_singleton]
    omega

/-- Configuration whose only skip index equals `num_layers - 1`:
`num_layers = 2`, `skip_connections = (1,)`. -/
def cfgSkipLast : MLPConfig := ⟨1, 2, 1, some 1, [1], none, none⟩

/-- The state `MLP.construct cfgSkipLast` produces. -/
def stSkipLast : MLPState := ⟨1, 1, 2, 1, [1], none, none, [(1, 1), (1, 1)]⟩

/-- A realization of `stSkipLast.layerDims` with zero weights and biases. -/
def layersSkipLast : List Linear :=
  [⟨1, 1, fun _ _ => 0, fun _ => 0⟩, ⟨1, 1, fun _ _ => 0, fun _ => 0⟩]

/-- A well-formed input of shape `[1, 1]` for `cfgSkipLast`. -/
def inputSkipLast : Tensor := ⟨[1], 1, [[0]]⟩

/-- Counterexample to C4 as stated: every element of `skip_connections` is
`≥ num_layers - 1` and `0` is absent, construction succeeds, yet the
concatenation branch runs once during evaluation (at the final layer
index `num_layers - 1`). -/
theorem skip_at_last_index_fires :
    MLP.construct cfgSkipLast = some stSkipLast ∧
    MLP.matchesDims layersSkipLast stSkipLast.layerDims ∧
    (∀ s ∈ cfgSkipLast.skip_connections, cfgSkipLast.num_layers - 1 ≤ s) ∧
    MLP.catCount stSkipLast layersSkipLast inputSkipLast = 1 :=
  ⟨rfl, rfl, by decide, by decide⟩

/-- Concrete configuration for the C4 witness: `num_layers = 3`,
`skip_connections = (5,)`. -/
def cfgSkipFar : MLPConfig := ⟨1, 3, 2, some 1, [5], none, none⟩

/-- Witness for the amended C4 at `cfgSkipFar`. -/
theorem skips_at_least_num_layers_never_fire_witness :
    ∃ st, MLP.construct cfgSkipFar = some st ∧
      ∀ layers input, MLP.matchesDims layers st.layerDims →
        MLP.catCount st layers input = 0 :=
  skips_at_least_num_layers_never_fire cfgSkipFar (by decide) (by decide) (by decide)
    (by decide) (by decide)

/-- C2: with a configured activation, a successful forward pass returns the
activation applied to the final linear unit's output (the activation is
applied after every unit, the last included); in particular with ReLU every
entry of the output is non-negative. -/
theorem activation_applied_after_last (cfg : MLPConfig) (st : MLPState)
    (layers : List Linear) (input out : Tensor) (f : ℚ → ℚ)
    (hc : MLP.construct cfg = some st) (ha : cfg.activation = some f)
    (hm : MLP.matchesDims layers st.layerDims)
    (hf : MLP.forward st layers input = some out) :
    (∃ y, out = actApply f y) ∧ (f = relu → ∀ r ∈ out.data, ∀ q ∈ r, 0 ≤ q) := by
  obtain ⟨hin, hbuild, hst⟩ := construct_inv hc
  have hm' : MLP.dimsOf layers = st.layerDims := hm
  have hne : layers ≠ [] := by
    intro hnil
    apply build_nn_modules_ne_nil hbuild
    rw [← hm', hnil]
    rfl
  have hact : st.activation = some f := by
    rw [hst]
    exact ha
  unfold MLP.forward at hf
  rw [hact] at hf
  obtain ⟨y, hy⟩ := forwardSteps_act_last st.skip_connections f input layers 0 input out hne hf
  refine ⟨⟨y, hy⟩, ?_⟩
  intro hrelu r hr q hq
  rw [hy] at hr
  simp only [actApply] at hr
  rcases List.mem_map.mp hr with ⟨r0, _, hr0⟩
  rw [← hr0] at hq
  rcases List.mem_map.mp hq with ⟨q0, _, hq0⟩
  rw [← hq0, hrelu]
  unfold relu
  by_cases hq : q0 ≤ 0
  · rw [if_pos hq]
  · rw [if_neg hq]
    exact le_of_not_le hq

/-- Concrete configuration for the C2 witness: one layer, ReLU activation. -/
def cfgRelu : MLPConfig := ⟨1, 1, 1, none, [], some relu, none⟩

/-- The state `MLP.construct cfgRelu` produces. -/
def stRelu : MLPState := ⟨1, 1, 1, 1, [], some relu, none, [(1, 1)]⟩

/-- A realization of `stRelu.layerDims` whose single weight is `-1`. -/
def layersRelu : List Linear := [⟨1, 1, fun _ _ => -1, fun _ => 0⟩]

/-- The input `[[1]]`, which the layer maps to `-1` before activation. -/
def inputRelu : Tensor := ⟨[1], 1, [[1]]⟩

/-- The output of `cfgRelu` on `inputRelu`: ReLU clamps `-1` to `0`. -/
def outRelu : Tensor := ⟨[1], 1, [[0]]⟩

/-- Witness for C2 at `cfgRelu`. -/
theorem activation_applied_after_last_witness :
    (∃ y, outRelu = actApply relu y) ∧
      (relu = relu → ∀ r ∈ outRelu.data, ∀ q ∈ r, 0 ≤ q) :=
  activation_applied_after_last cfgRelu stRelu layersRelu inputRelu outRelu relu rfl rfl rfl
    (by norm_num [MLP.forward, MLP.forwardSteps, linearApply, applyAct, actApply, relu,
      stRelu, layersRelu, inputRelu, outRelu, List.range_succ])

lemma forwardSteps_none_eq_affine (skips : List ℤ) (input : Tensor) :
    ∀ (ls : List Linear) (i : ℕ) (x : Tensor),
      (MLP.forwardSteps skips none input ls i x).1 = affineCompose skips input ls i x
  | [], _, _ => rfl
  | l :: rest, i, x => by
      rw [forwardSteps_cons]
      unfold affineCompose
      by_cases hm : (i : ℤ) ∈ skips
      · simp only [if_pos hm]
        cases hc : catLast input x with
        | none => simp [hc]
        | some x1 =>
            simp only [hc, Option.some_bind]
            cases hl : linearApply l x1 with
            | none => simp [hl]
            | some x2 =>
                have hrec := forwardSteps_none_eq_affine skips input rest (i + 1) x2
                simp [hl, applyAct, hrec]
      · simp only [if_neg hm]
        cases hl : linearApply l x with
        | none => simp [hl]
        | some x2 =>
            have hrec := forwardSteps_none_eq_affine skips input rest (i + 1) x2
            simp [hl, applyAct, hrec]

/-- C7: with `activation = None`, the forward pass equals the pure
composition of the stack's affine transforms with input concatenation at
skip indices (no element-wise non-linearity is applied anywhere). -/
theorem forward_no_activation_affine (cfg : MLPConfig) (st : MLPState)
    (layers : List Linear) (input : Tensor)
    (hc : MLP.construct cfg = some st) (h : cfg.activation = none) :
    MLP.forward st layers input = affineCompose st.skip_connections input layers 0 input := by
  obtain ⟨_, _, hst⟩ := construct_inv hc
  have h2 : st.activation = none := by
    rw [hst]
    exact h
  unfold MLP.forward
  rw [h2]
  exact forwardSteps_none_eq_affine st.skip_connections input layers 0 input

/-- Concrete configuration for the C7 witness: two layers, no activation. -/
def cfgNoAct : MLPConfig := ⟨1, 2, 1, some 1, [], none, none⟩

/-- The state `MLP.construct cfgNoAct` produces. -/
def stNoAct : MLPState := ⟨1, 1, 2, 1, [], none, none, [(1, 1), (1, 1)]⟩

/-- A realization of `stNoAct.layerDims` with unit weights. -/
def layersNoAct : List Linear :=
  [⟨1, 1, fun _ _ => 1, fun _ => 0⟩, ⟨1, 1, fun _ _ => 1, fun _ => 0⟩]

/-- A well-formed input of shape `[1, 1]` for `cfgNoAct`. -/
def inputNoAct : Tensor := ⟨[1], 1, [[1]]⟩

/-- Witness for C7 at `cfgNoAct`. -/
theorem forward_no_activation_affine_witness :
    MLP.forward stNoAct layersNoAct inputNoAct =
      affineCompose stNoAct.skip_connections inputNoAct layersNoAct 0 inputNoAct :=
  forward_no_activation_affine cfgNoAct stNoAct layersNoAct inputNoAct rfl rfl

/-- C8: two configurations differing only in `out_activation` build the
same layer stack and evaluate identically on every layer realization and
every input — `out_activation` is stored but never invoked. -/
theorem out_activation_ignored (cfg : MLPConfig) (g : Option (ℚ → ℚ)) (st : MLPState)
    (hc : MLP.construct cfg = some st) :
    ∃ st2, MLP.construct { cfg with out_activation := g } = some st2 ∧
      st2.layerDims = st.layerDims ∧
      ∀ layers input, MLP.forward st2 layers input = MLP.forward st layers input := by
  obtain ⟨hin, hbuild, hst⟩ := construct_inv hc
  refine ⟨⟨cfg.in_dim, cfg.out_dim.getD cfg.layer_width, cfg.num_layers, cfg.layer_width,
    cfg.skip_connections, cfg.activation, g, st.layerDims⟩, ?_, rfl, ?_⟩
  · unfold MLP.construct
    dsimp only
    rw [if_neg (by omega : ¬cfg.in_dim ≤ 0), hbuild]
    rfl
  · intro layers input
    rw [hst]
    rfl

/-- Concrete configuration for the C8 witness. -/
def cfgOutAct : MLPConfig := ⟨1, 2, 1, some 1, [], none, none⟩

/-- The state `MLP.construct cfgOutAct` produces. -/
def stOutAct : MLPState := ⟨1, 1, 2, 1, [], none, none, [(1, 1), (1, 1)]⟩

/-- Witness for C8 at `cfgOutAct`, changing `out_activation` to ReLU. -/
theorem out_activation_ignored_witness :
    ∃ st2, MLP.construct { cfgOutAct with out_activation := some relu } = some st2 ∧
      st2.layerDims = stOutAct.layerDims ∧
      ∀ layers input, MLP.forward st2 layers input = MLP.forward stOutAct layers input :=
  out_activation_ignored cfgOutAct (some relu) stOutAct rfl

/-- C5 (amended): for a constructed MLP with `num_layers ≥ 1` whose
`skip_connections` does not contain `num_layers - 1`, evaluating any
well-formed input with trailing dimension `in_dim` succeeds, preserves all
leading (batch) dimensions, and produces trailing dimension `out_dim`. -/
theorem forward_shape (cfg : MLPConfig) (st : MLPState) (layers : List Linear)
    (input : Tensor)
    (hc : MLP.construct cfg = some st)
    (hm : MLP.matchesDims layers st.layerDims)
    (hn : 1 ≤ cfg.num_layers)
    (hlast : cfg.num_layers - 1 ∉ cfg.skip_connections)
    (hwf : input.wf) (hfeat : (input.feat : ℤ) = cfg.in_dim) :
    ∃ out, MLP.forward st layers input = some out ∧ out.wf ∧
      out.batchDims = input.batchDims ∧
      (out.feat : ℤ) = cfg.out_dim.getD cfg.layer_width := by
  obtain ⟨hin, hbuild, hst⟩ := construct_inv hc
  have hm' : MLP.dimsOf layers = st.layerDims := hm
  have hinW : input.feat = cfg.in_dim.toNat := by omega
  have hrows : ∀ r ∈ input.data, r.length = input.feat := hwf.2
  have hsk : st.skip_connections = cfg.skip_connections := by rw [hst]
  have hx : MLP.forward st layers input =
      (MLP.forwardSteps cfg.skip_connections st.activation input layers 0 input).1 := by
    unfold MLP.forward
    rw [hsk]
  by_cases heq : cfg.num_layers = 1
  · unfold build_nn_modules at hbuild
    rw [if_pos heq] at hbuild
    rcases Option.map_eq_some'.mp hbuild with ⟨d, hmk, hdims⟩
    obtain ⟨hain, haod, hdeq⟩ := mkLinearDims_some hmk
    have h0 : (0 : ℤ) ∉ cfg.skip_connections := by
      intro hmem
      apply hlast
      rw [heq]
      simpa using hmem
    have hchain : chainOK cfg.skip_connections input.feat (MLP.dimsOf layers) 0 input.feat := by
      rw [hm', ← hdims, hdeq]
      refine ⟨?_, trivial⟩
      rw [if_neg (by simpa using h0 : ¬((0 : ℕ) : ℤ) ∈ cfg.skip_connections)]
      exact hinW.symm
    obtain ⟨out, hfs, hobd, holen, horows, hofeat⟩ :=
      forwardSteps_total cfg.skip_connections st.activation input hrows layers 0 input rfl rfl
        hrows hchain
    have hofeat2 : out.feat = (cfg.out_dim.getD cfg.layer_width).toNat := by
      rw [hofeat, hm', ← hdims, hdeq]
      rfl
    refine ⟨out, ?_, ⟨?_, horows⟩, hobd, ?_⟩
    · rw [hx]
      exact hfs
    · rw [holen, hobd]
      exact hwf.1
    · rw [hofeat2]
      exact Int.toNat_of_nonneg haod
  · unfold build_nn_modules at hbuild
    rw [if_neg heq] at hbuild
    rcases Option.bind_eq_some.mp hbuild with ⟨hs, hhs, hb2⟩
    rcases Option.bind_eq_some.mp hb2 with ⟨lastd, hmk, hb3⟩
    have hb4 : hs ++ [lastd] = st.layerDims := by simpa using hb3
    obtain ⟨hblw, hbod, hlast_eq⟩ := mkLinearDims_some hmk
    have hk1 : 1 ≤ (cfg.num_layers - 1).toNat := by omega
    have h0 : (0 : ℤ) ∉ cfg.skip_connections := buildHidden_some_not_mem hk1 hhs
    have hhs2 : hs = (List.range (cfg.num_layers - 1).toNat).map
        (hd cfg.in_dim cfg.layer_width cfg.skip_connections) := by
      have heqn := buildHidden_eq (by omega : (0 : ℤ) ≤ cfg.in_dim) hblw h0
        (cfg.num_layers - 1).toNat
      rw [heqn] at hhs
      exact (Option.some_inj.mp hhs).symm
    have hd0 : hd cfg.in_dim cfg.layer_width cfg.skip_connections 0 =
        (cfg.in_dim.toNat, cfg.layer_width.toNat) := by
      unfold hd
      rw [if_pos rfl]
    have hksplit : (cfg.num_layers - 1).toNat = ((cfg.num_layers - 1).toNat - 1) + 1 := by
      omega
    have hchain : chainOK cfg.skip_connections input.feat (MLP.dimsOf layers) 0 input.feat := by
      rw [hm', ← hb4, hhs2, hlast_eq]
      rw [hksplit, List.range_eq_range', List.range'_succ, List.map_cons, List.cons_append]
      refine ⟨?_, ?_⟩
      · rw [hd0, if_neg (by simpa using h0 : ¬((0 : ℕ) : ℤ) ∈ cfg.skip_connections)]
        exact hinW.symm
      · rw [hd0]
        have hsuf := @chainOK_suffix cfg.skip_connections cfg.in_dim cfg.layer_width
          (by omega : (0 : ℤ) ≤ cfg.in_dim) hblw
          (cfg.out_dim.getD cfg.layer_width).toNat ((cfg.num_layers - 1).toNat - 1) 1
          (by omega)
          (by
            have he : (1 + ((cfg.num_layers - 1).toNat - 1) : ℕ) =
                (cfg.num_layers - 1).toNat := by omega
            rw [he]
            have he2 : (((cfg.num_layers - 1).toNat : ℕ) : ℤ) = cfg.num_layers - 1 := by
              omega
            rw [he2]
            exact hlast)
        rw [← hinW] at hsuf
        exact hsuf
    obtain ⟨out, hfs, hobd, holen, horows, hofeat⟩ :=
      forwardSteps_total cfg.skip_connections st.activation input hrows layers 0 input rfl rfl
        hrows hchain
    have hofeat2 : out.feat = (cfg.out_dim.getD cfg.layer_width).toNat := by
      rw [hofeat, hm', ← hb4, hlast_eq, endFeat_append_single]
    refine ⟨out, ?_, ⟨?_, horows⟩, hobd, ?_⟩
    · rw [hx]
      exact hfs
    · rw [holen, hobd]
      exact hwf.1
    · rw [hofeat2]
      exact Int.toNat_of_nonneg hbod

/-- Configuration for the C5 counterexample: `in_dim = 1`, `num_layers = 2`,
`layer_width = 1`, `out_dim = 1`, `skip_connections = (1,)`. -/
def cfgSkipLastEval : MLPConfig := ⟨1, 2, 1, some 1, [1], none, none⟩

/-- The state `MLP.construct cfgSkipLastEval` produces. -/
def stSkipLastEval : MLPState := ⟨1, 1, 2, 1, [1], none, none, [(1, 1), (1, 1)]⟩

/-- A realization of `stSkipLastEval.layerDims` with zero parameters. -/
def layersSkipLastEval : List Linear :=
  [⟨1, 1, fun _ _ => 0, fun _ => 0⟩, ⟨1, 1, fun _ _ => 0, fun _ => 0⟩]

/-- A well-formed input of shape `[1, 1]` for `cfgSkipLastEval`. -/
def inputSkipLastEval : Tensor := ⟨[1], 1, [[0]]⟩

/-- Counterexample to C5 as stated: this MLP is constructed (the skip index
`num_layers - 1 = 1` is accepted) and the input has shape `[1, in_dim]`,
yet evaluation returns a shape error (`none`), not a `[1, out_dim]`
tensor: the concatenation at the final layer widens the running value to
`layer_width + in_dim` where the final unit expects `layer_width`. -/
theorem skip_at_last_index_shape_error :
    MLP.construct cfgSkipLastEval = some stSkipLastEval ∧
    MLP.matchesDims layersSkipLastEval stSkipLastEval.layerDims ∧
    inputSkipLastEval.wf ∧ (inputSkipLastEval.feat : ℤ) = cfgSkipLastEval.in_dim ∧
    MLP.forward stSkipLastEval layersSkipLastEval inputSkipLastEval = none :=
  ⟨rfl, rfl, by decide, by decide,
    by norm_num [MLP.forward, MLP.forwardSteps, linearApply, catLast, applyAct,
      stSkipLastEval, layersSkipLastEval, inputSkipLastEval, List.range_succ]⟩

/-- Configuration for the C5 witness: `in_dim = 2`, `num_layers = 3`,
`layer_width = 2`, `out_dim = 1`, `skip_connections = (1,)` — the interior
skip index does fire and the shapes line up. -/
def cfgShape : MLPConfig := ⟨2, 3, 2, some 1, [1], none, none⟩

/-- The state `MLP.construct cfgShape` produces. -/
def stShape : MLPState := ⟨2, 1, 3, 2, [1], none, none, [(2, 2), (4, 2), (2, 1)]⟩

/-- A realization of `stShape.layerDims` with zero parameters. -/
def layersShape : List Linear :=
  [⟨2, 2, fun _ _ => 0, fun _ => 0⟩, ⟨4, 2, fun _ _ => 0, fun _ => 0⟩,
    ⟨2, 1, fun _ _ => 0, fun _ => 0⟩]

/-- A well-formed input of shape `[2, 2]` for `cfgShape`. -/
def inputShape : Tensor := ⟨[2], 2, [[0, 0], [0, 0]]⟩

/-- Witness for the amended C5 at `cfgShape`. -/
theorem forward_shape_witness :
    ∃ out, MLP.forward stShape layersShape inputShape = some out ∧ out.wf ∧
      out.batchDims = inputShape.batchDims ∧
      (out.feat : ℤ) = cfgShape.out_dim.getD cfgShape.layer_width :=
  forward_shape cfgShape stShape layersShape inputShape rfl rfl (by decide) (by decide)
    (by decide) (by decide)
